import Mathlib

set_option maxHeartbeats 1000000

/-!
Verification development for the `Manager` orchestration core of
`pyacq/core/manager.py`.

The Python class `Manager` keeps three insertion-ordered dictionaries
(`self.hosts`, `self.nodegroups`, `self.nodes`), two monotone counters and a
lazily spawned default host.  Every mutating operation first validates against
the in-memory registry, then performs a remote RPC call through a client
handle, then commits the local bookkeeping.

The embedding below is a direct translation:

* Python dicts become association lists (`List (String × α)`) with dict
  semantics (`dlookup` finds the first binding, `dinsert` replaces in place or
  appends, `ddelete` removes the binding); insertion order is preserved.
* The bookkeeping classes `Manager._Host`, `Manager._NodeGroup` and
  `Manager._Node` become the records `HostRec`, `NodeGroupRec` and `NodeRec`.
  In Python the per-owner dictionaries store references to the very objects
  held in the global dictionaries; a reference is identified here by the
  entity's unique name, which is exactly how every code path dereferences it.
* Remote agents (Host / Nodegroup RPC peers and the process spawner) are an
  explicit environment `RemoteEnv` of response functions; a remote failure is
  an `Except.error`.  Every operation returns the Python result
  (`Except MgrError α`), the state after the call (Python mutations performed
  before an exception persist), and the list of remote calls it issued.
* Python `KeyError` raised by the explicit "already exists" checks is
  `MgrError.conflict`; `KeyError` raised by a failed dict lookup is
  `MgrError.notFound`; `TypeError` raised by iterating a non-iterable object
  is `MgrError.typeError`; an error propagating out of a remote call is
  `MgrError.remote`.
-/

/-! ### Python dict model -/

/-- First binding of key `k` (Python `d[k]` when present, dict keys are
unique so the first binding is the binding). -/
def dlookup {α : Type} : List (String × α) → String → Option α
  | [], _ => none
  | (k1, v) :: rest, k => if k1 = k then some v else dlookup rest k

/-- Python `k in d`. -/
def dmem {α : Type} (d : List (String × α)) (k : String) : Bool :=
  (dlookup d k).isSome

/-- Python `d[k] = v`: replace the binding in place if the key is present,
otherwise append (dicts are insertion ordered). -/
def dinsert {α : Type} : List (String × α) → String → α → List (String × α)
  | [], k, v => [(k, v)]
  | (k1, v1) :: rest, k, v =>
    if k1 = k then (k, v) :: rest else (k1, v1) :: dinsert rest k v

/-- Python `del d[k]` / `d.pop(k)` on a present key: drop the binding. -/
def ddelete {α : Type} : List (String × α) → String → List (String × α)
  | [], _ => []
  | (k1, v1) :: rest, k => if k1 = k then rest else (k1, v1) :: ddelete rest k

/-- Python `list(d.keys())`. -/
def dkeys {α : Type} (d : List (String × α)) : List String :=
  d.map Prod.fst

/-! ### String helpers used by the source -/

/-- The characters after the first occurrence of `sep` in `l`, or `[]` when
`sep` does not occur (helper for Python `partition`). -/
def charsAfterFirst (sep : List Char) : List Char → List Char
  | [] => []
  | c :: rest =>
    if sep.isPrefixOf (c :: rest) then (c :: rest).drop sep.length
    else charsAfterFirst sep rest

/-- Python `s.partition(sep)[2]`: the part after the first occurrence of
`sep`, or the empty string when `sep` does not occur. -/
def partAfterFirst (sep s : String) : String :=
  ⟨charsAfterFirst sep.data s.data⟩

/-- The characters before the last occurrence of the character `c` in `l`, or
`[]` when `c` does not occur (helper for Python `rpartition` with the
one-character separators the source uses). -/
def charsBeforeLast (c : Char) (l : List Char) : List Char :=
  match l.reverse.dropWhile (fun x => x != c) with
  | [] => []
  | _ :: rest => rest.reverse

/-- Python `s.rpartition(c)[0]` for a one-character separator: the part
before the last occurrence of `c`, or the empty string when `c` does not
occur. -/
def partBeforeLast (c : Char) (s : String) : String :=
  ⟨charsBeforeLast c s.data⟩

/-! ### Data model (`Manager._Host`, `Manager._NodeGroup`, `Manager._Node`) -/

/-- Model of `Manager._Host`: `rpc_address`, `rpc_hostname` (derived in `__init__` as
`addr.partition('//')[2].rpartition(':')[0]`), and the keys of its
`nodegroups` dict (the values are references to the globally registered
`_NodeGroup` objects, identified by their unique `rpc_name` key). -/
structure HostRec where
  rpc_address : String
  rpc_hostname : String
  nodegroups : List String
deriving DecidableEq, Repr

/-- Model of `Manager._NodeGroup`: owning host (reference, identified by the host's
unique name), `rpc_address`, and the keys of its `nodes` dict. -/
structure NodeGroupRec where
  host : String
  rpc_address : String
  nodes : List String
deriving DecidableEq, Repr

/-- Model of `Manager._Node`: owning nodegroup (reference, identified by its unique
name), `name`, `classname`.  The `outputs` list is created empty and never
touched by the Manager, so it carries no information here. -/
structure NodeRec where
  nodegroup : String
  name : String
  classname : String
deriving DecidableEq, Repr

/-- The mutable state set up by `Manager.__init__`: the manager's own bind
address `_addr` (used by `default_host`), the three registries, the default
host handle (name and address of the spawned process) and the two counters. -/
structure ManagerState where
  addr : String
  hosts : List (String × HostRec)
  nodegroups : List (String × NodeGroupRec)
  nodes : List (String × NodeRec)
  defaultHost : Option (String × String)
  nextNodegroupName : Nat
  nextNodeName : Nat
deriving DecidableEq, Repr

/-- Model of `Manager.__init__(name, addr)`: empty registries, no default host,
counters at zero. -/
def initState (addr : String) : ManagerState :=
  { addr := addr, hosts := [], nodegroups := [], nodes := [],
    defaultHost := none, nextNodegroupName := 0, nextNodeName := 0 }

/-- Errors a Manager operation can raise.  `conflict` is the explicit
`KeyError("... already exists")`, `notFound` is the `KeyError` of a failed
dict lookup, `typeError` is Python's `TypeError`, `remote` is any error
surfaced by a remote call. -/
inductive MgrError where
  | conflict (msg : String)
  | notFound (key : String)
  | typeError (msg : String)
  | remote
deriving DecidableEq, Repr

/-- One remote side effect: an RPC call to a Host or Nodegroup agent, or a
subprocess spawn through `ProcessSpawner`. -/
inductive RemoteCall where
  | spawnHost (addrTemplate : String)
  | hostClose (host : String)
  | hostCreateNodegroup (host ngname reqaddr : String)
  | ngCreateNode (ng nodename classname : String) (kwargs : List (String × String))
  | ngControlNode (ng nodename method : String) (kwargs : List (String × String))
  | ngDeleteNode (ng nodename : String)
  | ngStartAll (ng : String)
  | ngStopAll (ng : String)
deriving DecidableEq, Repr

/-- Behaviour of the remote peers: for each RPC the response (or failure)
returned by the agent, and for `ProcessSpawner` the spawned process's actual
name and address.  `hostCreateNodegroup` returns the `(name, address)` pair
reported by the Host agent (the address with the wildcard port resolved). -/
structure RemoteEnv where
  spawnHost : String → String × String
  hostClose : String → Except Unit Unit
  hostCreateNodegroup : String → String → String → Except Unit (String × String)
  ngCreateNode : String → String → String → List (String × String) → Except Unit Unit
  ngControlNode : String → String → String → List (String × String) → Except Unit String
  ngDeleteNode : String → String → Except Unit Unit
  ngStartAll : String → Except Unit Unit
  ngStopAll : String → Except Unit Unit

deriving instance DecidableEq for Except

/-- Result of one Manager operation: the value returned to the RPC caller (or
the error raised), the Manager state after the call (mutations performed
before an exception persist, exactly as in Python), and the remote calls that
were issued. -/
structure OpResult (α : Type) where
  res : Except MgrError α
  state : ManagerState
  calls : List RemoteCall
deriving DecidableEq, Repr

/-! ### The operations of `Manager` -/

/-- Model of `Manager._Host.__init__`: cache the address and the bare hostname. -/
def mkHostRec (addr : String) : HostRec :=
  { rpc_address := addr,
    rpc_hostname := partBeforeLast ':' (partAfterFirst "//" addr),
    nodegroups := [] }

/-- Dict assignment keyed by a name whose value is the named object itself:
keep the dict unchanged if the key is present, otherwise append it. -/
def addKey (l : List String) (k : String) : List String :=
  if k ∈ l then l else l ++ [k]

/-- Model of `Manager.connect_host(name, addr)`: register a `_Host` under `name`
unless `name` is already connected; never raises, makes no remote call. -/
def connect_host (st : ManagerState) (name addr : String) : ManagerState :=
  if dmem st.hosts name then st
  else { st with hosts := dinsert st.hosts name (mkHostRec addr) }

/-- Model of `Manager.disconnect_host(name)`.  The source is

    for ng in self.hosts[name]:
        self.nodegroups.pop(ng.name)
    self.hosts.pop(name)

If `name` is unknown, `self.hosts[name]` raises `KeyError`.  Otherwise the
`for` statement calls `iter` on the `_Host` object itself; `_Host` defines
neither `__iter__` nor `__getitem__`, so Python raises
`TypeError("'_Host' object is not iterable")` before the loop body or either
`pop` runs.  In both cases no registry entry is removed. -/
def disconnect_host (st : ManagerState) (name : String) :
    Except MgrError Unit × ManagerState :=
  match dlookup st.hosts name with
  | none => (.error (.notFound name), st)
  | some _ => (.error (.typeError "_Host object is not iterable"), st)

/-- Result of `default_host` (which cannot raise in this model: the spawner
reports a name and address). -/
structure SpawnResult where
  res : String × String
  state : ManagerState
  calls : List RemoteCall
deriving DecidableEq, Repr

/-- Model of `Manager.default_host()`: on first use derive an address template from
the manager's own address (`self._addr.rpartition(b':')[0] + b':*'`), spawn a
local Host process, remember it and connect to it; afterwards report the
remembered process's name and address. -/
def default_host (env : RemoteEnv) (st : ManagerState) : SpawnResult :=
  match st.defaultHost with
  | some dh => { res := dh, state := st, calls := [] }
  | none =>
    let addrTemplate := partBeforeLast ':' st.addr ++ ":*"
    let proc := env.spawnHost addrTemplate
    let st1 : ManagerState := { st with defaultHost := some proc }
    let st2 := connect_host st1 proc.1 proc.2
    { res := proc, state := st2, calls := [.spawnHost addrTemplate] }

/-- Model of `Manager.close_host(name)`: `self.hosts[name].client.close()`. -/
def close_host (env : RemoteEnv) (st : ManagerState) (name : String) : OpResult Unit :=
  match dlookup st.hosts name with
  | none => { res := .error (.notFound name), state := st, calls := [] }
  | some _ =>
    match env.hostClose name with
    | .ok _ => { res := .ok (), state := st, calls := [.hostClose name] }
    | .error _ => { res := .error .remote, state := st, calls := [.hostClose name] }

/-- Model of `Manager.list_hosts()`: `list(self.hosts.keys())`. -/
def list_hosts (st : ManagerState) : List String :=
  dkeys st.hosts

/-- Model of `Manager.create_nodegroup(host, name)`: conflict check on the global
nodegroup registry, look up the host, ask the Host agent to spawn the worker
at `tcp://<hostname>:*`, then register the returned address under the host
and globally and return `(name, addr)`. -/
def create_nodegroup (env : RemoteEnv) (st : ManagerState) (host name : String) :
    OpResult (String × String) :=
  if dmem st.nodegroups name then
    { res := .error (.conflict ("Nodegroup named " ++ name ++ " already exists")),
      state := st, calls := [] }
  else
    match dlookup st.hosts host with
    | none => { res := .error (.notFound host), state := st, calls := [] }
    | some h =>
      let reqaddr := "tcp://" ++ h.rpc_hostname ++ ":*"
      match env.hostCreateNodegroup host name reqaddr with
      | .error _ =>
        { res := .error .remote, state := st,
          calls := [.hostCreateNodegroup host name reqaddr] }
      | .ok pr =>
        let addr := pr.2
        let ng : NodeGroupRec := { host := host, rpc_address := addr, nodes := [] }
        let h1 : HostRec := { h with nodegroups := addKey h.nodegroups name }
        { res := .ok (name, addr),
          state := { st with hosts := dinsert st.hosts host h1,
                             nodegroups := dinsert st.nodegroups name ng },
          calls := [.hostCreateNodegroup host name reqaddr] }

/-- Model of `Manager.list_nodegroups(host=None)`: all nodegroup names, or the keys of
the given host's `nodegroups` dict. -/
def list_nodegroups (st : ManagerState) (host : Option String) :
    Except MgrError (List String) :=
  match host with
  | none => .ok (dkeys st.nodegroups)
  | some h =>
    match dlookup st.hosts h with
    | none => .error (.notFound h)
    | some hr => .ok hr.nodegroups

/-- Model of `Manager.create_node(nodegroup, name, classname, **kwargs)`: conflict
check on the global node registry, look up the nodegroup, forward the remote
`create_node`, then register the `_Node` globally and under its nodegroup. -/
def create_node (env : RemoteEnv) (st : ManagerState)
    (nodegroup name classname : String) (kwargs : List (String × String)) :
    OpResult Unit :=
  if dmem st.nodes name then
    { res := .error (.conflict ("Node named " ++ name ++ " already exists")),
      state := st, calls := [] }
  else
    match dlookup st.nodegroups nodegroup with
    | none => { res := .error (.notFound nodegroup), state := st, calls := [] }
    | some ng =>
      match env.ngCreateNode nodegroup name classname kwargs with
      | .error _ =>
        { res := .error .remote, state := st,
          calls := [.ngCreateNode nodegroup name classname kwargs] }
      | .ok _ =>
        let node : NodeRec := { nodegroup := nodegroup, name := name, classname := classname }
        let ng1 : NodeGroupRec := { ng with nodes := addKey ng.nodes name }
        { res := .ok (),
          state := { st with nodes := dinsert st.nodes name node,
                             nodegroups := dinsert st.nodegroups nodegroup ng1 },
          calls := [.ngCreateNode nodegroup name classname kwargs] }

/-- Model of `Manager.list_nodes(nodegroup=None)`: all node names, or the keys of the
given nodegroup's `nodes` dict. -/
def list_nodes (st : ManagerState) (nodegroup : Option String) :
    Except MgrError (List String) :=
  match nodegroup with
  | none => .ok (dkeys st.nodes)
  | some g =>
    match dlookup st.nodegroups g with
    | none => .error (.notFound g)
    | some ng => .ok ng.nodes

/-- Model of `Manager.control_node(name, method, **kwargs)`: look up the node's owning
nodegroup and forward the call verbatim, returning the agent's result. -/
def control_node (env : RemoteEnv) (st : ManagerState) (name method : String)
    (kwargs : List (String × String)) : OpResult String :=
  match dlookup st.nodes name with
  | none => { res := .error (.notFound name), state := st, calls := [] }
  | some node =>
    let g := node.nodegroup
    match env.ngControlNode g name method kwargs with
    | .ok r => { res := .ok r, state := st, calls := [.ngControlNode g name method kwargs] }
    | .error _ => { res := .error .remote, state := st,
                    calls := [.ngControlNode g name method kwargs] }

/-- Model of `Manager.delete_node(name)`: look up the node's owning nodegroup, forward
the remote delete, then `del self.nodes[name]` and `ng.delete_node(name)`.
The owning nodegroup is a reference held by the node; in every state the
program reaches it is the entry of the global `nodegroups` dict with that
name.  Mirroring Python's reference semantics at arbitrary states: if the
name is absent from the global dict the mutation of the unregistered object
is invisible, and `del self.nodes[name]` inside `ng.delete_node` raises
`KeyError` if the key is missing (after the global deletion, which sticks). -/
def delete_node (env : RemoteEnv) (st : ManagerState) (name : String) : OpResult Unit :=
  match dlookup st.nodes name with
  | none => { res := .error (.notFound name), state := st, calls := [] }
  | some node =>
    let g := node.nodegroup
    match env.ngDeleteNode g name with
    | .error _ => { res := .error .remote, state := st, calls := [.ngDeleteNode g name] }
    | .ok _ =>
      let st1 : ManagerState := { st with nodes := ddelete st.nodes name }
      match dlookup st1.nodegroups g with
      | none => { res := .ok (), state := st1, calls := [.ngDeleteNode g name] }
      | some ng =>
        if name ∈ ng.nodes then
          let ng1 : NodeGroupRec := { ng with nodes := ng.nodes.erase name }
          { res := .ok (),
            state := { st1 with nodegroups := dinsert st1.nodegroups g ng1 },
            calls := [.ngDeleteNode g name] }
        else
          { res := .error (.notFound name), state := st1, calls := [.ngDeleteNode g name] }

/-- Model of `Manager.suggest_nodegroup_name()`: `'nodegroup-%d' % counter`, then
increment the counter.  The registry is not consulted. -/
def suggest_nodegroup_name (st : ManagerState) : String × ManagerState :=
  ("nodegroup-" ++ Nat.repr st.nextNodegroupName,
   { st with nextNodegroupName := st.nextNodegroupName + 1 })

/-- Model of `Manager.suggest_node_name()`: `'node-%d' % counter`, then increment. -/
def suggest_node_name (st : ManagerState) : String × ManagerState :=
  ("node-" ++ Nat.repr st.nextNodeName,
   { st with nextNodeName := st.nextNodeName + 1 })

/-- The loop of `Manager.start_all_nodes`: call `start_all_nodes` on each
registered nodegroup's client in dict order; an exception propagates at once,
so the loop stops at the first failing call. -/
def startLoop (env : RemoteEnv) :
    List (String × NodeGroupRec) → Except MgrError Unit × List RemoteCall
  | [] => (.ok (), [])
  | (g, _) :: rest =>
    match env.ngStartAll g with
    | .error _ => (.error .remote, [.ngStartAll g])
    | .ok _ =>
      let r := startLoop env rest
      (r.1, .ngStartAll g :: r.2)

/-- Model of `Manager.start_all_nodes()`. -/
def start_all_nodes (env : RemoteEnv) (st : ManagerState) : OpResult Unit :=
  let r := startLoop env st.nodegroups
  { res := r.1, state := st, calls := r.2 }

/-- The loop of `Manager.stop_all_nodes`, same shape as `startLoop`. -/
def stopLoop (env : RemoteEnv) :
    List (String × NodeGroupRec) → Except MgrError Unit × List RemoteCall
  | [] => (.ok (), [])
  | (g, _) :: rest =>
    match env.ngStopAll g with
    | .error _ => (.error .remote, [.ngStopAll g])
    | .ok _ =>
      let r := stopLoop env rest
      (r.1, .ngStopAll g :: r.2)

/-- Model of `Manager.stop_all_nodes()`. -/
def stop_all_nodes (env : RemoteEnv) (st : ManagerState) : OpResult Unit :=
  let r := stopLoop env st.nodegroups
  { res := r.1, state := st, calls := r.2 }

/-! ### Dict lemmas -/

theorem dlookup_dinsert {α : Type} (d : List (String × α)) (k q : String) (v : α) :
    dlookup (dinsert d k v) q = if q = k then some v else dlookup d q := by
  induction d with
  | nil =>
    simp only [dinsert, dlookup]
    by_cases h : k = q
    · subst h; simp
    · rw [if_neg h, if_neg fun hh => h hh.symm]
  | cons p rest ih =>
    obtain ⟨k1, v1⟩ := p
    simp only [dinsert]
    by_cases h1 : k1 = k
    · subst h1
      simp only [if_pos rfl, dlookup]
      by_cases h2 : q = k1
      · subst h2; simp
      · rw [if_neg fun hh => h2 hh.symm, if_neg h2, if_neg fun hh => h2 hh.symm]
    · rw [if_neg h1]
      simp only [dlookup]
      by_cases h2 : k1 = q
      · have hqk : ¬ q = k := fun hh => h1 (h2.trans hh)
        rw [if_pos h2, if_neg hqk, if_pos h2]
      · rw [if_neg h2, if_neg h2, ih]

theorem mem_dkeys_dinsert {α : Type} (d : List (String × α)) (k q : String) (v : α) :
    q ∈ dkeys (dinsert d k v) ↔ q = k ∨ q ∈ dkeys d := by
  induction d with
  | nil => simp [dinsert, dkeys]
  | cons p rest ih =>
    obtain ⟨k1, v1⟩ := p
    simp only [dinsert]
    by_cases h1 : k1 = k
    · subst h1
      rw [if_pos rfl]
      simp only [dkeys, List.map_cons, List.mem_cons]
      tauto
    · rw [if_neg h1]
      simp only [dkeys, List.map_cons, List.mem_cons]
      rw [show (q ∈ List.map Prod.fst (dinsert rest k v)) = (q ∈ dkeys (dinsert rest k v)) from rfl, ih]
      simp only [dkeys]
      tauto

theorem dkeys_dinsert_nodup {α : Type} (d : List (String × α)) (k : String) (v : α)
    (h : (dkeys d).Nodup) : (dkeys (dinsert d k v)).Nodup := by
  induction d with
  | nil => simp [dinsert, dkeys]
  | cons p rest ih =>
    obtain ⟨k1, v1⟩ := p
    simp only [dkeys, List.map_cons, List.nodup_cons] at h
    simp only [dinsert]
    by_cases h1 : k1 = k
    · subst h1
      rw [if_pos rfl]
      simp only [dkeys, List.map_cons, List.nodup_cons]
      exact h
    · rw [if_neg h1]
      simp only [dkeys, List.map_cons, List.nodup_cons]
      refine ⟨?_, ih h.2⟩
      intro hc
      rcases (mem_dkeys_dinsert rest k k1 v).mp hc with h2 | h2
      · exact h1 h2
      · exact h.1 h2

theorem dlookup_ddelete_ne {α : Type} (d : List (String × α)) (k q : String)
    (h : q ≠ k) : dlookup (ddelete d k) q = dlookup d q := by
  induction d with
  | nil => simp [ddelete]
  | cons p rest ih =>
    obtain ⟨k1, v1⟩ := p
    simp only [ddelete]
    by_cases h1 : k1 = k
    · subst h1
      rw [if_pos rfl]
      simp only [dlookup]
      rw [if_neg fun hh => h (hh.symm)]
    · rw [if_neg h1]
      simp only [dlookup]
      by_cases h2 : k1 = q
      · rw [if_pos h2, if_pos h2]
      · rw [if_neg h2, if_neg h2, ih]

theorem dlookup_some_mem_dkeys {α : Type} (d : List (String × α)) (k : String) (v : α)
    (h : dlookup d k = some v) : k ∈ dkeys d := by
  induction d with
  | nil => simp [dlookup] at h
  | cons p rest ih =>
    obtain ⟨k1, v1⟩ := p
    simp only [dlookup] at h
    simp only [dkeys, List.map_cons, List.mem_cons]
    by_cases h1 : k1 = k
    · left; exact h1.symm
    · rw [if_neg h1] at h
      right; exact ih h

theorem dlookup_ddelete_self {α : Type} (d : List (String × α)) (k : String)
    (h : (dkeys d).Nodup) : dlookup (ddelete d k) k = none := by
  induction d with
  | nil => simp [ddelete, dlookup]
  | cons p rest ih =>
    obtain ⟨k1, v1⟩ := p
    simp only [dkeys, List.map_cons, List.nodup_cons] at h
    simp only [ddelete]
    by_cases h1 : k1 = k
    · subst h1
      rw [if_pos rfl]
      cases hl : dlookup rest k1 with
      | none => rfl
      | some v => exact absurd (dlookup_some_mem_dkeys rest k1 v hl) h.1
    · rw [if_neg h1]
      simp only [dlookup]
      rw [if_neg h1]
      exact ih h.2

theorem mem_dkeys_ddelete {α : Type} (d : List (String × α)) (k q : String)
    (h : q ∈ dkeys (ddelete d k)) : q ∈ dkeys d := by
  induction d with
  | nil => simpa [ddelete] using h
  | cons p rest ih =>
    obtain ⟨k1, v1⟩ := p
    simp only [ddelete] at h
    by_cases h1 : k1 = k
    · rw [if_pos h1] at h
      simp only [dkeys, List.map_cons, List.mem_cons]
      right; exact h
    · rw [if_neg h1] at h
      simp only [dkeys, List.map_cons, List.mem_cons] at h ⊢
      rcases h with h | h
      · left; exact h
      · right; exact ih h

theorem dkeys_ddelete_nodup {α : Type} (d : List (String × α)) (k : String)
    (h : (dkeys d).Nodup) : (dkeys (ddelete d k)).Nodup := by
  induction d with
  | nil => simp [ddelete, dkeys]
  | cons p rest ih =>
    obtain ⟨k1, v1⟩ := p
    simp only [dkeys, List.map_cons, List.nodup_cons] at h
    simp only [ddelete]
    by_cases h1 : k1 = k
    · rw [if_pos h1]; exact h.2
    · rw [if_neg h1]
      simp only [dkeys, List.map_cons, List.nodup_cons]
      exact ⟨fun hc => h.1 (mem_dkeys_ddelete rest k k1 hc), ih h.2⟩

theorem dmem_false_dlookup {α : Type} (d : List (String × α)) (k : String)
    (h : dmem d k = false) : dlookup d k = none := by
  unfold dmem at h
  cases hl : dlookup d k with
  | none => rfl
  | some v => rw [hl] at h; simp at h

theorem dmem_true_dlookup {α : Type} (d : List (String × α)) (k : String)
    (h : dmem d k = true) : ∃ v, dlookup d k = some v := by
  unfold dmem at h
  cases hl : dlookup d k with
  | none => rw [hl] at h; simp at h
  | some v => exact ⟨v, rfl⟩

theorem dlookup_mem {α : Type} (d : List (String × α)) (k : String) (v : α)
    (h : dlookup d k = some v) : (k, v) ∈ d := by
  induction d with
  | nil => simp [dlookup] at h
  | cons p rest ih =>
    obtain ⟨k1, v1⟩ := p
    simp only [dlookup] at h
    by_cases h1 : k1 = k
    · subst h1
      rw [if_pos rfl] at h
      rw [Option.some_inj] at h
      subst h
      simp
    · rw [if_neg h1] at h
      simp [ih h]

theorem mem_dkeys_dlookup {α : Type} (d : List (String × α)) (k : String)
    (h : k ∈ dkeys d) : ∃ v, dlookup d k = some v := by
  induction d with
  | nil => simp [dkeys] at h
  | cons p rest ih =>
    obtain ⟨k1, v1⟩ := p
    simp only [dkeys, List.map_cons, List.mem_cons] at h
    simp only [dlookup]
    by_cases h1 : k1 = k
    · rw [if_pos h1]; exact ⟨v1, rfl⟩
    · rw [if_neg h1]
      rcases h with h | h
      · exact absurd h.symm h1
      · exact ih h

theorem ddelete_dinsert {α : Type} (d : List (String × α)) (k : String) (v : α)
    (h : dmem d k = false) : ddelete (dinsert d k v) k = d := by
  have hl := dmem_false_dlookup d k h
  clear h
  induction d with
  | nil => simp [dinsert, ddelete]
  | cons p rest ih =>
    obtain ⟨k1, v1⟩ := p
    simp only [dlookup] at hl
    by_cases h1 : k1 = k
    · rw [if_pos h1] at hl; simp at hl
    · rw [if_neg h1] at hl
      simp only [dinsert]
      rw [if_neg h1]
      simp only [ddelete]
      rw [if_neg h1, ih hl]

theorem mem_addKey (l : List String) (k q : String) :
    q ∈ addKey l k ↔ q = k ∨ q ∈ l := by
  unfold addKey
  by_cases h : k ∈ l
  · rw [if_pos h]
    constructor
    · exact Or.inr
    · rintro (rfl | hq)
      · exact h
      · exact hq
  · rw [if_neg h]
    simp only [List.mem_append, List.mem_singleton]
    tauto

theorem addKey_nodup (l : List String) (k : String) (h : l.Nodup) :
    (addKey l k).Nodup := by
  unfold addKey
  by_cases hm : k ∈ l
  · rw [if_pos hm]; exact h
  · rw [if_neg hm]
    rw [List.nodup_append]
    refine ⟨h, List.nodup_singleton k, ?_⟩
    intro a ha hb
    simp only [List.mem_singleton] at hb
    subst hb
    exact hm ha

theorem dlookup_dinsert_self {α : Type} (d : List (String × α)) (k : String) (v : α) :
    dlookup (dinsert d k v) k = some v := by
  rw [dlookup_dinsert, if_pos rfl]

theorem dlookup_dinsert_ne {α : Type} (d : List (String × α)) (k q : String) (v : α)
    (h : q ≠ k) : dlookup (dinsert d k v) q = dlookup d q := by
  rw [dlookup_dinsert, if_neg h]

/-! ### Concrete remote environments and registry states used as inputs -/

/-- Remote peers that answer every call successfully. -/
def envOk : RemoteEnv :=
  { spawnHost := fun t => ("default-host", t),
    hostClose := fun _ => .ok (),
    hostCreateNodegroup := fun _ _ req => .ok ("spawned", req),
    ngCreateNode := fun _ _ _ _ => .ok (),
    ngControlNode := fun _ _ _ _ => .ok "done",
    ngDeleteNode := fun _ _ => .ok (),
    ngStartAll := fun _ => .ok (),
    ngStopAll := fun _ => .ok () }

/-- Remote peers whose every RPC fails. -/
def envFail : RemoteEnv :=
  { spawnHost := fun t => ("default-host", t),
    hostClose := fun _ => .error (),
    hostCreateNodegroup := fun _ _ _ => .error (),
    ngCreateNode := fun _ _ _ _ => .error (),
    ngControlNode := fun _ _ _ _ => .error (),
    ngDeleteNode := fun _ _ => .error (),
    ngStartAll := fun _ => .error (),
    ngStopAll := fun _ => .error () }

/-- Remote peers where only nodegroup `ngA` fails its `start_all_nodes`. -/
def envC2 : RemoteEnv :=
  { envOk with ngStartAll := fun g => if g = "ngA" then .error () else .ok () }

def st0 : ManagerState := initState "tcp://127.0.0.1:7000"

/-- One connected host `h1`. -/
def stH : ManagerState := connect_host st0 "h1" "tcp://127.0.0.1:5000"

/-- Host `h1` owning nodegroup `ng1`. -/
def stNG : ManagerState := (create_nodegroup envOk stH "h1" "ng1").state

/-- Host `h1`, nodegroup `ng1`, node `n1` inside it. -/
def stNode : ManagerState := (create_node envOk stNG "ng1" "n1" "Cls" []).state

/-- Host `h1` owning two nodegroups `ngA` then `ngB` (in insertion order). -/
def stAB : ManagerState :=
  (create_nodegroup envOk (create_nodegroup envOk stH "h1" "ngA").state "h1" "ngB").state

/-- Host `h1` owning a nodegroup that a caller chose to register under the
counter-shaped name `nodegroup-0`; the suggestion counter is still 0. -/
def stC8 : ManagerState := (create_nodegroup envOk stH "h1" "nodegroup-0").state



/-! ### Claim theorems -/

/-- C1: the claim says `disconnect_host(h)` cascades, removing the host, its
nodegroups and their nodes from the global registries.  The code instead
iterates the `_Host` object itself (`for ng in self.hosts[name]`), which is
not iterable, so on a registry with connected host `h1` owning nodegroup
`ng1` owning node `n1` the call raises `TypeError` and removes nothing:
`h1` is still listed and `ng1` and `n1` are still registered.  The spec's §9
itself flags this loop as a defect of the source, so the code, not the claim,
is wrong. -/
theorem C1_disconnect_host_no_cascade :
    (disconnect_host stNode "h1").1 = .error (.typeError "_Host object is not iterable") ∧
    (disconnect_host stNode "h1").2 = stNode ∧
    "h1" ∈ list_hosts stNode ∧
    dmem stNode.nodegroups "ng1" = true ∧
    dmem stNode.nodes "n1" = true := by
  refine ⟨?_, ?_, ?_, ?_, ?_⟩ <;> decide

/-- C3: creating a Nodegroup (resp. Node) under a name that already denotes a
registered Nodegroup (resp. Node) raises the conflict `KeyError`, leaves the
whole Manager state (registries and counters) unchanged, and issues no remote
call. -/
theorem C3_conflict_no_mutation_no_call (st : ManagerState) (env : RemoteEnv)
    (host gname ngtarget nname cls : String) (kwargs : List (String × String))
    (hg : dmem st.nodegroups gname = true) (hn : dmem st.nodes nname = true) :
    create_nodegroup env st host gname =
      { res := .error (.conflict ("Nodegroup named " ++ gname ++ " already exists")),
        state := st, calls := [] } ∧
    create_node env st ngtarget nname cls kwargs =
      { res := .error (.conflict ("Node named " ++ nname ++ " already exists")),
        state := st, calls := [] } := by
  constructor
  · simp [create_nodegroup, hg]
  · simp [create_node, hn]

/-- Witness for C3 at the concrete registry `stNode` (which registers
nodegroup `ng1` and node `n1`). -/
theorem C3_conflict_witness :
    create_nodegroup envOk stNode "h1" "ng1" =
      { res := .error (.conflict ("Nodegroup named " ++ "ng1" ++ " already exists")),
        state := stNode, calls := [] } ∧
    create_node envOk stNode "ng1" "n1" "Cls" [] =
      { res := .error (.conflict ("Node named " ++ "n1" ++ " already exists")),
        state := stNode, calls := [] } :=
  C3_conflict_no_mutation_no_call stNode envOk "h1" "ng1" "ng1" "n1" "Cls" []
    (by decide) (by decide)

/-- C4: when the remote agent call fails, `create_nodegroup`, `create_node`
and `delete_node` leave the Manager state exactly as it was (call-level
atomicity on remote error).  A remote failure is the only way these
operations produce `MgrError.remote`. -/
theorem C4_remote_error_no_mutation (st : ManagerState) (env : RemoteEnv)
    (host gname ngt nname cls dname : String) (kwargs : List (String × String)) :
    ((create_nodegroup env st host gname).res = .error .remote →
      (create_nodegroup env st host gname).state = st) ∧
    ((create_node env st ngt nname cls kwargs).res = .error .remote →
      (create_node env st ngt nname cls kwargs).state = st) ∧
    ((delete_node env st dname).res = .error .remote →
      (delete_node env st dname).state = st) := by
  refine ⟨?_, ?_, ?_⟩
  · unfold create_nodegroup
    by_cases hc : dmem st.nodegroups gname = true
    · simp [hc]
    · simp only [hc, Bool.false_eq_true, if_false]
      cases hh : dlookup st.hosts host with
      | none => simp [hh]
      | some h =>
        cases he : env.hostCreateNodegroup host gname ("tcp://" ++ h.rpc_hostname ++ ":*") with
        | error e => simp [hh, he]
        | ok pr => simp [hh, he]
  · unfold create_node
    by_cases hc : dmem st.nodes nname = true
    · simp [hc]
    · simp only [hc, Bool.false_eq_true, if_false]
      cases hh : dlookup st.nodegroups ngt with
      | none => simp [hh]
      | some ng =>
        cases he : env.ngCreateNode ngt nname cls kwargs with
        | error e => simp [hh, he]
        | ok u => simp [hh, he]
  · unfold delete_node
    cases hh : dlookup st.nodes dname with
    | none => simp [hh]
    | some node =>
      cases he : env.ngDeleteNode node.nodegroup dname with
      | error e => simp [hh, he]
      | ok u =>
        cases hg : dlookup st.nodegroups node.nodegroup with
        | none => simp [hh, he, hg]
        | some ng =>
          by_cases hm : dname ∈ ng.nodes
          · simp [hh, he, hg, hm]
          · simp [hh, he, hg, hm]

/-- C7: `connect_host` is idempotent: a second connect under the same name,
with any address, is a no-op and the state equals the state after the first
call. -/
theorem C7_connect_host_idempotent (st : ManagerState) (n a a2 : String) :
    connect_host (connect_host st n a) n a2 = connect_host st n a := by
  by_cases h : dmem st.hosts n = true
  · simp [connect_host, h]
  · have h2 : dmem { st with hosts := dinsert st.hosts n (mkHostRec a) }.hosts n = true := by
      simp [dmem, dlookup_dinsert_self]
    simp [connect_host, h, h2]

/-- Witness for C4: `stNode` with failing remote peers; none of the three
operations changes the state. -/
theorem C4_remote_error_no_mutation_witness :
    (create_nodegroup envFail stNode "h1" "ngZ").state = stNode ∧
    (create_node envFail stNode "ng1" "nZ" "Cls" []).state = stNode ∧
    (delete_node envFail stNode "n1").state = stNode := by
  have h := C4_remote_error_no_mutation stNode envFail "h1" "ngZ" "ng1" "nZ" "Cls" "n1" []
  exact ⟨h.1 (by decide), h.2.1 (by decide), h.2.2 (by decide)⟩

/-- C5 counterexample: the claim promises `NotFoundError` whenever a
referenced entity name is unknown, but in `create_nodegroup` the global
name-conflict check runs first: with nodegroup `ngA` registered and `nohost`
not connected, `create_nodegroup("nohost", "ngA")` raises the conflict
error, not `NotFoundError`. -/
theorem C5_conflict_preempts_notfound :
    dmem stAB.hosts "nohost" = false ∧
    (create_nodegroup envOk stAB "nohost" "ngA").res ≠ .error (.notFound "nohost") ∧
    (create_nodegroup envOk stAB "nohost" "ngA").res =
      .error (.conflict ("Nodegroup named " ++ "ngA" ++ " already exists")) := by
  refine ⟨by decide, by decide, by decide⟩

/-- C5 amended: an operation referencing an unknown Host / Nodegroup / Node
name raises the not-found `KeyError` before any remote call and leaves the
registry unchanged — provided, for `create_nodegroup` and `create_node`, that
the name being created is not already taken, because their conflict check
precedes the owner lookup. -/
theorem C5_notfound_before_remote (st : ManagerState) (env : RemoteEnv)
    (hn gname ngt nname cls method : String) (kwargs : List (String × String)) :
    (dmem st.hosts hn = false →
       disconnect_host st hn = (.error (.notFound hn), st)) ∧
    (dmem st.hosts hn = false →
       close_host env st hn = { res := .error (.notFound hn), state := st, calls := [] }) ∧
    (dmem st.hosts hn = false →
       list_nodegroups st (some hn) = .error (.notFound hn)) ∧
    (dmem st.nodegroups gname = false → dmem st.hosts hn = false →
       create_nodegroup env st hn gname =
         { res := .error (.notFound hn), state := st, calls := [] }) ∧
    (dmem st.nodegroups ngt = false →
       list_nodes st (some ngt) = .error (.notFound ngt)) ∧
    (dmem st.nodes nname = false → dmem st.nodegroups ngt = false →
       create_node env st ngt nname cls kwargs =
         { res := .error (.notFound ngt), state := st, calls := [] }) ∧
    (dmem st.nodes nname = false →
       control_node env st nname method kwargs =
         { res := .error (.notFound nname), state := st, calls := [] }) ∧
    (dmem st.nodes nname = false →
       delete_node env st nname =
         { res := .error (.notFound nname), state := st, calls := [] }) := by
  refine ⟨?_, ?_, ?_, ?_, ?_, ?_, ?_, ?_⟩
  · intro h
    simp [disconnect_host, dmem_false_dlookup _ _ h]
  · intro h
    simp [close_host, dmem_false_dlookup _ _ h]
  · intro h
    simp [list_nodegroups, dmem_false_dlookup _ _ h]
  · intro hg h
    simp [create_nodegroup, hg, dmem_false_dlookup _ _ h]
  · intro h
    simp [list_nodes, dmem_false_dlookup _ _ h]
  · intro hno hg
    simp [create_node, hno, dmem_false_dlookup _ _ hg]
  · intro h
    simp [control_node, dmem_false_dlookup _ _ h]
  · intro h
    simp [delete_node, dmem_false_dlookup _ _ h]

/-- Witness for the amended C5 at the concrete registry `stAB`, with names
`hx`, `gx`, `nx` that are registered nowhere. -/
theorem C5_notfound_before_remote_witness :
    disconnect_host stAB "hx" = (.error (.notFound "hx"), stAB) ∧
    close_host envOk stAB "hx" = { res := .error (.notFound "hx"), state := stAB, calls := [] } ∧
    list_nodegroups stAB (some "hx") = .error (.notFound "hx") ∧
    create_nodegroup envOk stAB "hx" "gx" =
      { res := .error (.notFound "hx"), state := stAB, calls := [] } ∧
    list_nodes stAB (some "gx") = .error (.notFound "gx") ∧
    create_node envOk stAB "gx" "nx" "Cls" [] =
      { res := .error (.notFound "gx"), state := stAB, calls := [] } ∧
    control_node envOk stAB "nx" "start" [] =
      { res := .error (.notFound "nx"), state := stAB, calls := [] } ∧
    delete_node envOk stAB "nx" =
      { res := .error (.notFound "nx"), state := stAB, calls := [] } := by
  have h := C5_notfound_before_remote stAB envOk "hx" "gx" "gx" "nx" "Cls" "start" []
  exact ⟨h.1 (by decide), h.2.1 (by decide), h.2.2.1 (by decide),
         h.2.2.2.1 (by decide) (by decide), h.2.2.2.2.1 (by decide),
         h.2.2.2.2.2.1 (by decide) (by decide), h.2.2.2.2.2.2.1 (by decide),
         h.2.2.2.2.2.2.2 (by decide)⟩

/-! ### C2: broadcast loops -/

theorem startLoop_all_ok (env : RemoteEnv) (l : List (String × NodeGroupRec))
    (h : ∀ g ∈ dkeys l, env.ngStartAll g = .ok ()) :
    startLoop env l = (.ok (), (dkeys l).map RemoteCall.ngStartAll) := by
  induction l with
  | nil => simp [startLoop, dkeys]
  | cons p rest ih =>
    obtain ⟨g, ng⟩ := p
    have hg : env.ngStartAll g = .ok () := h g (by simp [dkeys])
    have hrest : ∀ x ∈ dkeys rest, env.ngStartAll x = .ok () := by
      intro x hx
      exact h x (by simp only [dkeys, List.map_cons, List.mem_cons]; right; exact hx)
    simp [startLoop, hg, ih hrest, dkeys]

theorem startLoop_first_fail (env : RemoteEnv) (l : List (String × NodeGroupRec))
    (pre : List String) (g : String) (post : List String)
    (hsplit : dkeys l = pre ++ g :: post)
    (hok : ∀ x ∈ pre, env.ngStartAll x = .ok ())
    (hfail : env.ngStartAll g = .error ()) :
    startLoop env l =
      (.error .remote, pre.map RemoteCall.ngStartAll ++ [RemoteCall.ngStartAll g]) := by
  induction l generalizing pre with
  | nil => simp [dkeys] at hsplit
  | cons p rest ih =>
    obtain ⟨k, ng⟩ := p
    cases pre with
    | nil =>
      simp only [dkeys, List.map_cons, List.nil_append, List.cons.injEq] at hsplit
      obtain ⟨rfl, -⟩ := hsplit
      simp [startLoop, hfail]
    | cons p1 pre1 =>
      simp only [dkeys, List.map_cons, List.cons_append, List.cons.injEq] at hsplit
      obtain ⟨rfl, hsp⟩ := hsplit
      have hk : env.ngStartAll k = .ok () := hok k (by simp)
      have hrec := ih pre1 hsp (fun x hx => hok x (by simp [hx]))
      simp [startLoop, hk, hrec]

theorem stopLoop_all_ok (env : RemoteEnv) (l : List (String × NodeGroupRec))
    (h : ∀ g ∈ dkeys l, env.ngStopAll g = .ok ()) :
    stopLoop env l = (.ok (), (dkeys l).map RemoteCall.ngStopAll) := by
  induction l with
  | nil => simp [stopLoop, dkeys]
  | cons p rest ih =>
    obtain ⟨g, ng⟩ := p
    have hg : env.ngStopAll g = .ok () := h g (by simp [dkeys])
    have hrest : ∀ x ∈ dkeys rest, env.ngStopAll x = .ok () := by
      intro x hx
      exact h x (by simp only [dkeys, List.map_cons, List.mem_cons]; right; exact hx)
    simp [stopLoop, hg, ih hrest, dkeys]

theorem stopLoop_first_fail (env : RemoteEnv) (l : List (String × NodeGroupRec))
    (pre : List String) (g : String) (post : List String)
    (hsplit : dkeys l = pre ++ g :: post)
    (hok : ∀ x ∈ pre, env.ngStopAll x = .ok ())
    (hfail : env.ngStopAll g = .error ()) :
    stopLoop env l =
      (.error .remote, pre.map RemoteCall.ngStopAll ++ [RemoteCall.ngStopAll g]) := by
  induction l generalizing pre with
  | nil => simp [dkeys] at hsplit
  | cons p rest ih =>
    obtain ⟨k, ng⟩ := p
    cases pre with
    | nil =>
      simp only [dkeys, List.map_cons, List.nil_append, List.cons.injEq] at hsplit
      obtain ⟨rfl, -⟩ := hsplit
      simp [stopLoop, hfail]
    | cons p1 pre1 =>
      simp only [dkeys, List.map_cons, List.cons_append, List.cons.injEq] at hsplit
      obtain ⟨rfl, hsp⟩ := hsplit
      have hk : env.ngStopAll k = .ok () := hok k (by simp)
      have hrec := ih pre1 hsp (fun x hx => hok x (by simp [hx]))
      simp [stopLoop, hk, hrec]

/-- C2 counterexample: with nodegroups `ngA`, `ngB` registered in that order
and `ngA`'s remote `start_all_nodes` failing, the broadcast issues the call
to `ngA` only — the exception aborts the loop and `ngB` is never called,
although its own call would have succeeded.  This refutes the claim that a
failing target does not suppress the others. -/
theorem C2_abort_on_first_failure :
    dmem stAB.nodegroups "ngA" = true ∧
    dmem stAB.nodegroups "ngB" = true ∧
    envC2.ngStartAll "ngB" = .ok () ∧
    (start_all_nodes envC2 stAB).calls = [RemoteCall.ngStartAll "ngA"] ∧
    RemoteCall.ngStartAll "ngB" ∉ (start_all_nodes envC2 stAB).calls := by
  refine ⟨by decide, by decide, by decide, by decide, by decide⟩

/-- C2 amended: `start_all_nodes` / `stop_all_nodes` issue the remote call to
every registered Nodegroup when all the remote calls succeed; when a remote
call fails, the exception propagates at once: the Nodegroups before the
failing one (in registry order) have been called, the failing one was called,
and the Nodegroups after it are not called. -/
theorem C2_broadcast_behaviour (st : ManagerState) (env : RemoteEnv)
    (pre : List String) (g : String) (post : List String) :
    ((∀ x ∈ dkeys st.nodegroups, env.ngStartAll x = .ok ()) →
       (start_all_nodes env st).calls = (dkeys st.nodegroups).map RemoteCall.ngStartAll ∧
       (start_all_nodes env st).res = .ok ()) ∧
    (dkeys st.nodegroups = pre ++ g :: post →
       (∀ x ∈ pre, env.ngStartAll x = .ok ()) →
       env.ngStartAll g = .error () →
       (start_all_nodes env st).calls =
         pre.map RemoteCall.ngStartAll ++ [RemoteCall.ngStartAll g] ∧
       (start_all_nodes env st).res = .error .remote) ∧
    ((∀ x ∈ dkeys st.nodegroups, env.ngStopAll x = .ok ()) →
       (stop_all_nodes env st).calls = (dkeys st.nodegroups).map RemoteCall.ngStopAll ∧
       (stop_all_nodes env st).res = .ok ()) ∧
    (dkeys st.nodegroups = pre ++ g :: post →
       (∀ x ∈ pre, env.ngStopAll x = .ok ()) →
       env.ngStopAll g = .error () →
       (stop_all_nodes env st).calls =
         pre.map RemoteCall.ngStopAll ++ [RemoteCall.ngStopAll g] ∧
       (stop_all_nodes env st).res = .error .remote) := by
  refine ⟨?_, ?_, ?_, ?_⟩
  · intro h
    simp [start_all_nodes, startLoop_all_ok env st.nodegroups h]
  · intro hsplit hok hfail
    simp [start_all_nodes, startLoop_first_fail env st.nodegroups pre g post hsplit hok hfail]
  · intro h
    simp [stop_all_nodes, stopLoop_all_ok env st.nodegroups h]
  · intro hsplit hok hfail
    simp [stop_all_nodes, stopLoop_first_fail env st.nodegroups pre g post hsplit hok hfail]

/-- Witness for the amended C2: all-success broadcast over `stAB` with
`envOk`, and the aborted broadcast over `stAB` with `envC2` (which fails on
`ngA`, the first of the two registered nodegroups). -/
theorem C2_broadcast_behaviour_witness :
    ((start_all_nodes envOk stAB).calls =
       (dkeys stAB.nodegroups).map RemoteCall.ngStartAll ∧
     (start_all_nodes envOk stAB).res = .ok ()) ∧
    ((start_all_nodes envC2 stAB).calls =
       List.map RemoteCall.ngStartAll [] ++ [RemoteCall.ngStartAll "ngA"] ∧
     (start_all_nodes envC2 stAB).res = .error .remote) := by
  constructor
  · exact (C2_broadcast_behaviour stAB envOk [] "x" []).1 (by decide)
  · exact (C2_broadcast_behaviour stAB envC2 [] "ngA" ["ngB"]).2.1
      (by decide) (by decide) (by decide)

/-! ### C9: default host -/

/-- Number of subprocess spawns in a list of remote effects. -/
def countSpawns (l : List RemoteCall) : Nat :=
  (l.filter fun c => match c with | .spawnHost _ => true | _ => false).length

theorem default_host_some (env : RemoteEnv) (st : ManagerState) (dh : String × String)
    (h : st.defaultHost = some dh) :
    default_host env st = { res := dh, state := st, calls := [] } := by
  unfold default_host
  rw [h]

theorem connect_host_defaultHost (st : ManagerState) (n a : String) :
    (connect_host st n a).defaultHost = st.defaultHost := by
  unfold connect_host
  split <;> rfl

theorem dmem_connect_host_self (st : ManagerState) (n a : String) :
    dmem (connect_host st n a).hosts n = true := by
  unfold connect_host
  by_cases h : dmem st.hosts n = true
  · simp [h]
  · simp only [h, Bool.false_eq_true, if_false]
    simp [dmem, dlookup_dinsert_self]

/-- C9: starting from a Manager that has not yet spawned its default host,
`default_host()` twice returns the identical (name, address) pair, the second
call changes nothing and issues no call, exactly one subprocess spawn happens
across both calls, and the spawned host is connected after the first call. -/
theorem C9_default_host_spawns_once (st : ManagerState) (env : RemoteEnv)
    (h : st.defaultHost = none) :
    (default_host env (default_host env st).state).res = (default_host env st).res ∧
    (default_host env (default_host env st).state).state = (default_host env st).state ∧
    countSpawns ((default_host env st).calls ++
      (default_host env (default_host env st).state).calls) = 1 ∧
    dmem (default_host env st).state.hosts (default_host env st).res.1 = true := by
  have h1 : default_host env st =
      { res := env.spawnHost (partBeforeLast ':' st.addr ++ ":*"),
        state := connect_host
          { st with defaultHost := some (env.spawnHost (partBeforeLast ':' st.addr ++ ":*")) }
          (env.spawnHost (partBeforeLast ':' st.addr ++ ":*")).1
          (env.spawnHost (partBeforeLast ':' st.addr ++ ":*")).2,
        calls := [.spawnHost (partBeforeLast ':' st.addr ++ ":*")] } := by
    unfold default_host
    rw [h]
  have h2 : (default_host env st).state.defaultHost =
      some (env.spawnHost (partBeforeLast ':' st.addr ++ ":*")) := by
    rw [h1, connect_host_defaultHost]
  have h3 : default_host env (default_host env st).state =
      { res := env.spawnHost (partBeforeLast ':' st.addr ++ ":*"),
        state := (default_host env st).state, calls := [] } :=
    default_host_some env _ _ h2
  refine ⟨?_, ?_, ?_, ?_⟩
  · rw [h3, h1]
  · rw [h3]
  · rw [h3, h1]
    simp [countSpawns]
  · rw [h1]
    exact dmem_connect_host_self _ _ _

/-- Witness for C9 at the fresh Manager `st0` with environment `envOk`. -/
theorem C9_default_host_spawns_once_witness :
    (default_host envOk (default_host envOk st0).state).res = (default_host envOk st0).res ∧
    (default_host envOk (default_host envOk st0).state).state = (default_host envOk st0).state ∧
    countSpawns ((default_host envOk st0).calls ++
      (default_host envOk (default_host envOk st0).state).calls) = 1 ∧
    dmem (default_host envOk st0).state.hosts (default_host envOk st0).res.1 = true :=
  C9_default_host_spawns_once st0 envOk (by decide)

/-! ### C8: suggested names -/

/-- C8 counterexample: a caller registered a nodegroup under the
counter-shaped name `nodegroup-0` of its own choosing (the suggestion counter
is still 0), and `suggest_nodegroup_name()` then returns `nodegroup-0`, which
currently denotes a registered Nodegroup — not a fresh name.  The counter
never consults the registry. -/
theorem C8_suggested_name_can_collide :
    (suggest_nodegroup_name stC8).1 = "nodegroup-0" ∧
    dmem stC8.nodegroups "nodegroup-0" = true := by
  refine ⟨by decide, by decide⟩

/-! ### Decimal representation: `Nat.repr` is injective and parseable -/

/-- Decimal digit characters of `n`, most significant first. -/
def natDigits (n : Nat) : List Char :=
  if _ : n < 10 then [Nat.digitChar n]
  else natDigits (n / 10) ++ [Nat.digitChar (n % 10)]
decreasing_by
  exact Nat.div_lt_self (by omega) (by omega)

theorem toDigitsCore_eq (fuel : Nat) : ∀ (n : Nat) (ds : List Char), n < fuel →
    Nat.toDigitsCore 10 fuel n ds = natDigits n ++ ds := by
  induction fuel with
  | zero => intro n ds h; omega
  | succ f ih =>
    intro n ds h
    rw [Nat.toDigitsCore]
    by_cases h0 : n / 10 = 0
    · rw [if_pos h0]
      have hn : n < 10 := by
        have hd := Nat.div_add_mod n 10
        have hm : n % 10 < 10 := Nat.mod_lt _ (by omega)
        omega
      rw [natDigits, dif_pos hn, Nat.mod_eq_of_lt hn]
      rfl
    · rw [if_neg h0]
      have h10 : ¬ n < 10 := fun hlt => h0 (Nat.div_eq_of_lt hlt)
      have hf : n / 10 < f := by
        have h1 : n / 10 < n := Nat.div_lt_self (by omega) (by omega)
        omega
      conv_rhs => rw [natDigits]
      rw [dif_neg h10]
      rw [ih (n / 10) (Nat.digitChar (n % 10) :: ds) hf]
      simp

theorem toDigits_eq_natDigits (n : Nat) : Nat.toDigits 10 n = natDigits n := by
  rw [Nat.toDigits, toDigitsCore_eq (n + 1) n [] (Nat.lt_succ_self n)]
  simp

/-- Value of a decimal digit character. -/
def digitVal (c : Char) : Nat := c.toNat - '0'.toNat

/-- Parse a list of decimal digit characters, most significant first. -/
def parseNat (l : List Char) : Nat :=
  l.foldl (fun acc c => 10 * acc + digitVal c) 0

theorem digitVal_digitChar (d : Nat) (h : d < 10) : digitVal (Nat.digitChar d) = d := by
  interval_cases d <;> rfl

theorem parseNat_natDigits (n : Nat) : parseNat (natDigits n) = n := by
  induction n using Nat.strong_induction_on with
  | _ n ih =>
    by_cases h : n < 10
    · rw [natDigits, dif_pos h]
      simp [parseNat, digitVal_digitChar n h]
    · rw [natDigits, dif_neg h]
      have hd : n / 10 < n := Nat.div_lt_self (by omega) (by omega)
      have hrec := ih (n / 10) hd
      unfold parseNat at hrec ⊢
      rw [List.foldl_append, hrec]
      simp [digitVal_digitChar (n % 10) (Nat.mod_lt _ (by omega))]
      omega

theorem natRepr_parse (n : Nat) : parseNat (Nat.repr n).data = n := by
  rw [Nat.repr]
  have : (Nat.toDigits 10 n).asString.data = Nat.toDigits 10 n := rfl
  rw [this, toDigits_eq_natDigits, parseNat_natDigits]

theorem natRepr_injective (a b : Nat) (h : Nat.repr a = Nat.repr b) : a = b := by
  have ha := natRepr_parse a
  rw [h, natRepr_parse b] at ha
  exact ha.symm

/-! ### C8: iterated name suggestion -/

/-- Names returned by `N` successive calls of `suggest_nodegroup_name` from state `st`: the
returned names in order, and the final state. -/
def suggestNodegroupNames : Nat → ManagerState → List String × ManagerState
  | 0, st => ([], st)
  | n + 1, st =>
    let r := suggest_nodegroup_name st
    let q := suggestNodegroupNames n r.2
    (r.1 :: q.1, q.2)

/-- Names returned by `N` successive calls of `suggest_node_name` from `st`. -/
def suggestNodeNames : Nat → ManagerState → List String × ManagerState
  | 0, st => ([], st)
  | n + 1, st =>
    let r := suggest_node_name st
    let q := suggestNodeNames n r.2
    (r.1 :: q.1, q.2)

/-- The integer suffix of a name of the form `nodegroup-<digits>`. -/
def ngSuffix (s : String) : Nat := parseNat (s.data.drop 10)

/-- The integer suffix of a name of the form `node-<digits>`. -/
def nodeSuffix (s : String) : Nat := parseNat (s.data.drop 5)

theorem string_data_append (a b : String) : (a ++ b).data = a.data ++ b.data := rfl

theorem ngSuffix_mk (k : Nat) : ngSuffix ("nodegroup-" ++ Nat.repr k) = k := by
  unfold ngSuffix
  rw [string_data_append]
  rw [show (10 : Nat) = ("nodegroup-" : String).data.length from rfl]
  rw [List.drop_left]
  exact natRepr_parse k

theorem nodeSuffix_mk (k : Nat) : nodeSuffix ("node-" ++ Nat.repr k) = k := by
  unfold nodeSuffix
  rw [string_data_append]
  rw [show (5 : Nat) = ("node-" : String).data.length from rfl]
  rw [List.drop_left]
  exact natRepr_parse k

theorem suggestNodegroupNames_spec (N : Nat) : ∀ st : ManagerState,
    (suggestNodegroupNames N st).1 =
      (List.range N).map (fun i => "nodegroup-" ++ Nat.repr (st.nextNodegroupName + i)) := by
  induction N with
  | zero => intro st; simp [suggestNodegroupNames]
  | succ n ih =>
    intro st
    simp only [suggestNodegroupNames, suggest_nodegroup_name]
    rw [ih]
    rw [List.range_succ_eq_map]
    simp only [List.map_cons, List.map_map, Nat.add_zero]
    congr 1
    apply List.map_congr_left
    intro i hi
    simp only [Function.comp_apply]
    congr 2
    omega

theorem suggestNodeNames_spec (N : Nat) : ∀ st : ManagerState,
    (suggestNodeNames N st).1 =
      (List.range N).map (fun i => "node-" ++ Nat.repr (st.nextNodeName + i)) := by
  induction N with
  | zero => intro st; simp [suggestNodeNames]
  | succ n ih =>
    intro st
    simp only [suggestNodeNames, suggest_node_name]
    rw [ih]
    rw [List.range_succ_eq_map]
    simp only [List.map_cons, List.map_map, Nat.add_zero]
    congr 1
    apply List.map_congr_left
    intro i hi
    simp only [Function.comp_apply]
    congr 2
    omega

/-- C8 amended: `N` successive calls of `suggest_nodegroup_name` (resp.
`suggest_node_name`) return exactly the names `nodegroup-c`, `nodegroup-(c+1)`,
… for the current counter value `c` — `N` distinct names whose integer
suffixes strictly increase.  (The names are fresh with respect to the
suggestion counter only: as `C8_suggested_name_can_collide` shows, such a name
can still collide with a registered entity whose counter-shaped name was
chosen manually, because the counter never consults the registry.) -/
theorem C8_suggest_names_monotone (st : ManagerState) (N : Nat) :
    ((suggestNodegroupNames N st).1 =
       (List.range N).map (fun i => "nodegroup-" ++ Nat.repr (st.nextNodegroupName + i))) ∧
    (suggestNodegroupNames N st).1.Nodup ∧
    ((suggestNodegroupNames N st).1.Pairwise fun a b => ngSuffix a < ngSuffix b) ∧
    ((suggestNodeNames N st).1 =
       (List.range N).map (fun i => "node-" ++ Nat.repr (st.nextNodeName + i))) ∧
    (suggestNodeNames N st).1.Nodup ∧
    ((suggestNodeNames N st).1.Pairwise fun a b => nodeSuffix a < nodeSuffix b) := by
  have hinjg : Function.Injective
      (fun i => "nodegroup-" ++ Nat.repr (st.nextNodegroupName + i)) := by
    intro i j hij
    have h2 := congrArg ngSuffix hij
    simp only [ngSuffix_mk] at h2
    omega
  have hinjn : Function.Injective
      (fun i => "node-" ++ Nat.repr (st.nextNodeName + i)) := by
    intro i j hij
    have h2 := congrArg nodeSuffix hij
    simp only [nodeSuffix_mk] at h2
    omega
  refine ⟨suggestNodegroupNames_spec N st, ?_, ?_, suggestNodeNames_spec N st, ?_, ?_⟩
  · rw [suggestNodegroupNames_spec]
    exact (List.nodup_range N).map hinjg
  · rw [suggestNodegroupNames_spec, List.pairwise_map]
    apply List.Pairwise.imp ?_ (List.pairwise_lt_range N)
    intro a b hab
    simp only [ngSuffix_mk]
    omega
  · rw [suggestNodeNames_spec]
    exact (List.nodup_range N).map hinjn
  · rw [suggestNodeNames_spec, List.pairwise_map]
    apply List.Pairwise.imp ?_ (List.pairwise_lt_range N)
    intro a b hab
    simp only [nodeSuffix_mk]
    omega

/-! ### Registry consistency (claims C6 and C10) -/

/-- Bidirectional agreement of the global and per-owner registries: every
globally registered Nodegroup is listed (under the same name) by its owning
Host and vice versa, and every globally registered Node is listed by its
owning Nodegroup and vice versa.  This is the property claim C10 states. -/
def RegistryAgrees (st : ManagerState) : Prop :=
  (∀ name ng, dlookup st.nodegroups name = some ng →
     ∃ h, dlookup st.hosts ng.host = some h ∧ name ∈ h.nodegroups) ∧
  (∀ hname h, dlookup st.hosts hname = some h →
     ∀ n ∈ h.nodegroups, ∃ ng, dlookup st.nodegroups n = some ng ∧ ng.host = hname) ∧
  (∀ name nd, dlookup st.nodes name = some nd →
     ∃ g, dlookup st.nodegroups nd.nodegroup = some g ∧ name ∈ g.nodes) ∧
  (∀ gname g, dlookup st.nodegroups gname = some g →
     ∀ n ∈ g.nodes, ∃ nd, dlookup st.nodes n = some nd ∧ nd.nodegroup = gname)

/-- Full consistency: agreement plus uniqueness of all dict keys (Python
dicts cannot hold a key twice). -/
def Consistent (st : ManagerState) : Prop :=
  RegistryAgrees st ∧
  (dkeys st.hosts).Nodup ∧ (dkeys st.nodegroups).Nodup ∧ (dkeys st.nodes).Nodup ∧
  (∀ hname h, dlookup st.hosts hname = some h → h.nodegroups.Nodup) ∧
  (∀ gname g, dlookup st.nodegroups gname = some g → g.nodes.Nodup)

theorem consistent_initState (addr : String) : Consistent (initState addr) := by
  refine ⟨⟨?_, ?_, ?_, ?_⟩, ?_, ?_, ?_, ?_, ?_⟩ <;>
    simp [initState, dlookup, dkeys]

theorem consistent_connect_host (st : ManagerState) (n a : String)
    (h : Consistent st) : Consistent (connect_host st n a) := by
  unfold connect_host
  by_cases hm : dmem st.hosts n = true
  · simpa [hm] using h
  · simp only [hm, Bool.false_eq_true, if_false]
    obtain ⟨⟨ra1, ra2, ra3, ra4⟩, nh, nng, nnd, hhnd, hgnd⟩ := h
    have hnone : dlookup st.hosts n = none :=
      dmem_false_dlookup _ _ (Bool.not_eq_true _ ▸ eq_false_of_ne_true hm)
    refine ⟨⟨?_, ?_, ?_, ?_⟩, ?_, ?_, ?_, ?_, ?_⟩
    · intro name ng hng
      obtain ⟨hh, hh1, hh2⟩ := ra1 name ng hng
      have hne : ng.host ≠ n := by
        intro he
        rw [he, hnone] at hh1
        exact Option.noConfusion hh1
      exact ⟨hh, by rwa [dlookup_dinsert_ne _ _ _ _ hne], hh2⟩
    · intro hname hh hhl
      by_cases he : hname = n
      · subst he
        rw [dlookup_dinsert_self] at hhl
        rw [Option.some_inj] at hhl
        subst hhl
        intro m hm2
        simp [mkHostRec] at hm2
      · rw [dlookup_dinsert_ne _ _ _ _ he] at hhl
        exact ra2 hname hh hhl
    · exact ra3
    · exact ra4
    · exact dkeys_dinsert_nodup _ _ _ nh
    · exact nng
    · exact nnd
    · intro hname hh hhl
      by_cases he : hname = n
      · subst he
        rw [dlookup_dinsert_self] at hhl
        rw [Option.some_inj] at hhl
        subst hhl
        simp [mkHostRec]
      · rw [dlookup_dinsert_ne _ _ _ _ he] at hhl
        exact hhnd hname hh hhl
    · exact hgnd

theorem consistent_create_nodegroup (st : ManagerState) (env : RemoteEnv)
    (host name : String) (h : Consistent st) :
    Consistent (create_nodegroup env st host name).state := by
  by_cases hc : dmem st.nodegroups name = true
  · have hstate : (create_nodegroup env st host name).state = st := by
      unfold create_nodegroup
      simp [hc]
    rw [hstate]
    exact h
  · have hgnone : dlookup st.nodegroups name = none :=
      dmem_false_dlookup _ _ (eq_false_of_ne_true hc)
    cases hh : dlookup st.hosts host with
    | none =>
      have hstate : (create_nodegroup env st host name).state = st := by
        unfold create_nodegroup
        simp [hc, hh]
      rw [hstate]
      exact h
    | some hrec =>
      cases he : env.hostCreateNodegroup host name ("tcp://" ++ hrec.rpc_hostname ++ ":*") with
      | error e =>
        have hstate : (create_nodegroup env st host name).state = st := by
          unfold create_nodegroup
          simp [hc, hh, he]
        rw [hstate]
        exact h
      | ok pr =>
        have hstate : (create_nodegroup env st host name).state =
            { st with
              hosts := dinsert st.hosts host
                { hrec with nodegroups := addKey hrec.nodegroups name },
              nodegroups := dinsert st.nodegroups name
                { host := host, rpc_address := pr.2, nodes := [] } } := by
          unfold create_nodegroup
          simp [hc, hh, he]
        rw [hstate]
        obtain ⟨⟨ra1, ra2, ra3, ra4⟩, nh, nng, nnd, hhnd, hgnd⟩ := h
        unfold Consistent RegistryAgrees
        dsimp only
        refine ⟨⟨?_, ?_, ?_, ?_⟩, ?_, ?_, ?_, ?_, ?_⟩
        · -- every nodegroup is listed by its host
          intro nm ng' hng
          rw [dlookup_dinsert] at hng
          by_cases he1 : nm = name
          · rw [if_pos he1] at hng
            rw [Option.some_inj] at hng
            subst hng
            subst he1
            refine ⟨{ hrec with nodegroups := addKey hrec.nodegroups nm }, ?_, ?_⟩
            · rw [dlookup_dinsert_self]
            · rw [mem_addKey]
              left
              rfl
          · rw [if_neg he1] at hng
            obtain ⟨hh2, hl2, hm2⟩ := ra1 nm ng' hng
            by_cases he2 : ng'.host = host
            · rw [he2, hh, Option.some_inj] at hl2
              subst hl2
              refine ⟨{ hrec with nodegroups := addKey hrec.nodegroups name }, ?_, ?_⟩
              · rw [he2, dlookup_dinsert_self]
              · rw [mem_addKey]
                right
                exact hm2
            · refine ⟨hh2, ?_, hm2⟩
              rw [dlookup_dinsert_ne _ _ _ _ he2]
              exact hl2
        · -- every name a host lists is a registered nodegroup owned by it
          intro hname hh2 hl2 m hm2
          rw [dlookup_dinsert] at hl2
          by_cases he1 : hname = host
          · rw [if_pos he1, Option.some_inj] at hl2
            subst hl2
            have hm3 : m = name ∨ m ∈ hrec.nodegroups := (mem_addKey _ _ _).mp hm2
            by_cases he2 : m = name
            · subst he2
              refine ⟨{ host := host, rpc_address := pr.2, nodes := [] }, ?_, ?_⟩
              · rw [dlookup_dinsert_self]
              · rw [he1]
            · rcases hm3 with he3 | hm4
              · exact absurd he3 he2
              · obtain ⟨ng', hng', hho⟩ := ra2 host hrec hh m hm4
                refine ⟨ng', ?_, ?_⟩
                · rw [dlookup_dinsert_ne _ _ _ _ he2]
                  exact hng'
                · rw [hho, he1]
          · rw [if_neg he1] at hl2
            obtain ⟨ng', hng', hho⟩ := ra2 hname hh2 hl2 m hm2
            by_cases he2 : m = name
            · subst he2
              rw [hgnone] at hng'
              exact Option.noConfusion hng'
            · refine ⟨ng', ?_, hho⟩
              rw [dlookup_dinsert_ne _ _ _ _ he2]
              exact hng'
        · -- every node is listed by its nodegroup
          intro nm nd hnd
          obtain ⟨g, hg, hmem⟩ := ra3 nm nd hnd
          by_cases he1 : nd.nodegroup = name
          · rw [he1, hgnone] at hg
            exact Option.noConfusion hg
          · refine ⟨g, ?_, hmem⟩
            rw [dlookup_dinsert_ne _ _ _ _ he1]
            exact hg
        · -- every name a nodegroup lists is a registered node owned by it
          intro gname g hg m hm2
          rw [dlookup_dinsert] at hg
          by_cases he1 : gname = name
          · rw [if_pos he1, Option.some_inj] at hg
            subst hg
            simp at hm2
          · rw [if_neg he1] at hg
            exact ra4 gname g hg m hm2
        · exact dkeys_dinsert_nodup _ _ _ nh
        · exact dkeys_dinsert_nodup _ _ _ nng
        · exact nnd
        · intro hname hh2 hl2
          rw [dlookup_dinsert] at hl2
          by_cases he1 : hname = host
          · rw [if_pos he1, Option.some_inj] at hl2
            subst hl2
            exact addKey_nodup _ _ (hhnd host hrec hh)
          · rw [if_neg he1] at hl2
            exact hhnd hname hh2 hl2
        · intro gname g hg
          rw [dlookup_dinsert] at hg
          by_cases he1 : gname = name
          · rw [if_pos he1, Option.some_inj] at hg
            subst hg
            simp
          · rw [if_neg he1] at hg
            exact hgnd gname g hg

theorem consistent_create_node (st : ManagerState) (env : RemoteEnv)
    (nodegroup name classname : String) (kwargs : List (String × String))
    (h : Consistent st) :
    Consistent (create_node env st nodegroup name classname kwargs).state := by
  by_cases hc : dmem st.nodes name = true
  · have hstate : (create_node env st nodegroup name classname kwargs).state = st := by
      unfold create_node
      simp [hc]
    rw [hstate]
    exact h
  · have hgnone : dlookup st.nodes name = none :=
      dmem_false_dlookup _ _ (eq_false_of_ne_true hc)
    cases hh : dlookup st.nodegroups nodegroup with
    | none =>
      have hstate : (create_node env st nodegroup name classname kwargs).state = st := by
        unfold create_node
        simp [hc, hh]
      rw [hstate]
      exact h
    | some ng =>
      cases he : env.ngCreateNode nodegroup name classname kwargs with
      | error e =>
        have hstate : (create_node env st nodegroup name classname kwargs).state = st := by
          unfold create_node
          simp [hc, hh, he]
        rw [hstate]
        exact h
      | ok u =>
        have hstate : (create_node env st nodegroup name classname kwargs).state =
            { st with
              nodes := dinsert st.nodes name
                { nodegroup := nodegroup, name := name, classname := classname },
              nodegroups := dinsert st.nodegroups nodegroup
                { ng with nodes := addKey ng.nodes name } } := by
          unfold create_node
          simp [hc, hh, he]
        rw [hstate]
        obtain ⟨⟨ra1, ra2, ra3, ra4⟩, nh, nng, nnd, hhnd, hgnd⟩ := h
        unfold Consistent RegistryAgrees
        dsimp only
        refine ⟨⟨?_, ?_, ?_, ?_⟩, ?_, ?_, ?_, ?_, ?_⟩
        · -- every nodegroup is listed by its host (hosts unchanged)
          intro nm ng' hng
          rw [dlookup_dinsert] at hng
          by_cases he1 : nm = nodegroup
          · rw [if_pos he1, Option.some_inj] at hng
            subst hng
            subst he1
            exact ra1 nm ng hh
          · rw [if_neg he1] at hng
            exact ra1 nm ng' hng
        · -- every name a host lists is a registered nodegroup owned by it
          intro hname hh2 hl2 m hm2
          obtain ⟨ng1, hng1, hho⟩ := ra2 hname hh2 hl2 m hm2
          by_cases he1 : m = nodegroup
          · subst he1
            rw [hh, Option.some_inj] at hng1
            subst hng1
            refine ⟨{ ng with nodes := addKey ng.nodes name }, ?_, hho⟩
            rw [dlookup_dinsert_self]
          · refine ⟨ng1, ?_, hho⟩
            rw [dlookup_dinsert_ne _ _ _ _ he1]
            exact hng1
        · -- every node is listed by its nodegroup
          intro nm nd hnd
          rw [dlookup_dinsert] at hnd
          by_cases he1 : nm = name
          · rw [if_pos he1, Option.some_inj] at hnd
            subst hnd
            subst he1
            refine ⟨{ ng with nodes := addKey ng.nodes nm }, ?_, ?_⟩
            · rw [dlookup_dinsert_self]
            · rw [mem_addKey]
              left
              rfl
          · rw [if_neg he1] at hnd
            obtain ⟨g, hg, hmem⟩ := ra3 nm nd hnd
            by_cases he2 : nd.nodegroup = nodegroup
            · rw [he2, hh, Option.some_inj] at hg
              subst hg
              refine ⟨{ ng with nodes := addKey ng.nodes name }, ?_, ?_⟩
              · rw [he2, dlookup_dinsert_self]
              · rw [mem_addKey]
                right
                exact hmem
            · refine ⟨g, ?_, hmem⟩
              rw [dlookup_dinsert_ne _ _ _ _ he2]
              exact hg
        · -- every name a nodegroup lists is a registered node owned by it
          intro gname g' hg m hm2
          rw [dlookup_dinsert] at hg
          by_cases he1 : gname = nodegroup
          · rw [if_pos he1, Option.some_inj] at hg
            subst hg
            have hm3 : m = name ∨ m ∈ ng.nodes := (mem_addKey _ _ _).mp hm2
            by_cases he2 : m = name
            · subst he2
              refine ⟨{ nodegroup := nodegroup, name := m, classname := classname }, ?_, ?_⟩
              · rw [dlookup_dinsert_self]
              · rw [he1]
            · rcases hm3 with he3 | hm4
              · exact absurd he3 he2
              · obtain ⟨nd, hnd, hno⟩ := ra4 nodegroup ng hh m hm4
                refine ⟨nd, ?_, ?_⟩
                · rw [dlookup_dinsert_ne _ _ _ _ he2]
                  exact hnd
                · rw [hno, he1]
          · rw [if_neg he1] at hg
            obtain ⟨nd, hnd, hno⟩ := ra4 gname g' hg m hm2
            by_cases he2 : m = name
            · subst he2
              rw [hgnone] at hnd
              exact Option.noConfusion hnd
            · refine ⟨nd, ?_, hno⟩
              rw [dlookup_dinsert_ne _ _ _ _ he2]
              exact hnd
        · exact nh
        · exact dkeys_dinsert_nodup _ _ _ nng
        · exact dkeys_dinsert_nodup _ _ _ nnd
        · exact hhnd
        · intro gname g' hg
          rw [dlookup_dinsert] at hg
          by_cases he1 : gname = nodegroup
          · rw [if_pos he1, Option.some_inj] at hg
            subst hg
            exact addKey_nodup _ _ (hgnd nodegroup ng hh)
          · rw [if_neg he1] at hg
            exact hgnd gname g' hg

theorem consistent_delete_node (st : ManagerState) (env : RemoteEnv)
    (dname : String) (h : Consistent st) :
    Consistent (delete_node env st dname).state := by
  cases hh : dlookup st.nodes dname with
  | none =>
    have hstate : (delete_node env st dname).state = st := by
      unfold delete_node
      simp [hh]
    rw [hstate]
    exact h
  | some node =>
    cases he : env.ngDeleteNode node.nodegroup dname with
    | error e =>
      have hstate : (delete_node env st dname).state = st := by
        unfold delete_node
        simp [hh, he]
      rw [hstate]
      exact h
    | ok u =>
      obtain ⟨⟨ra1, ra2, ra3, ra4⟩, nh, nng, nnd, hhnd, hgnd⟩ := h
      obtain ⟨g, hg, hmem⟩ := ra3 dname node hh
      have hstate : (delete_node env st dname).state =
          { st with
            nodes := ddelete st.nodes dname,
            nodegroups := dinsert st.nodegroups node.nodegroup
              { g with nodes := g.nodes.erase dname } } := by
        unfold delete_node
        simp [hh, he, hg, hmem]
      rw [hstate]
      have hgnodup : g.nodes.Nodup := hgnd node.nodegroup g hg
      unfold Consistent RegistryAgrees
      dsimp only
      refine ⟨⟨?_, ?_, ?_, ?_⟩, ?_, ?_, ?_, ?_, ?_⟩
      · -- every nodegroup is listed by its host (hosts unchanged)
        intro nm ng' hng
        rw [dlookup_dinsert] at hng
        by_cases he1 : nm = node.nodegroup
        · rw [if_pos he1, Option.some_inj] at hng
          subst hng
          subst he1
          exact ra1 node.nodegroup g hg
        · rw [if_neg he1] at hng
          exact ra1 nm ng' hng
      · -- every name a host lists is a registered nodegroup owned by it
        intro hname hh2 hl2 m hm2
        obtain ⟨ng1, hng1, hho⟩ := ra2 hname hh2 hl2 m hm2
        by_cases he1 : m = node.nodegroup
        · subst he1
          rw [hg, Option.some_inj] at hng1
          subst hng1
          refine ⟨{ g with nodes := g.nodes.erase dname }, ?_, hho⟩
          rw [dlookup_dinsert_self]
        · refine ⟨ng1, ?_, hho⟩
          rw [dlookup_dinsert_ne _ _ _ _ he1]
          exact hng1
      · -- every node is listed by its nodegroup
        intro nm nd hnd
        by_cases he1 : nm = dname
        · subst he1
          rw [dlookup_ddelete_self _ _ nnd] at hnd
          exact Option.noConfusion hnd
        · rw [dlookup_ddelete_ne _ _ _ he1] at hnd
          obtain ⟨g2, hg2, hmem2⟩ := ra3 nm nd hnd
          by_cases he2 : nd.nodegroup = node.nodegroup
          · rw [he2, hg, Option.some_inj] at hg2
            subst hg2
            refine ⟨{ g with nodes := g.nodes.erase dname }, ?_, ?_⟩
            · rw [he2, dlookup_dinsert_self]
            · exact List.mem_erase_of_ne he1 |>.mpr hmem2
          · refine ⟨g2, ?_, hmem2⟩
            rw [dlookup_dinsert_ne _ _ _ _ he2]
            exact hg2
      · -- every name a nodegroup lists is a registered node owned by it
        intro gname g' hg' m hm2
        rw [dlookup_dinsert] at hg'
        by_cases he1 : gname = node.nodegroup
        · rw [if_pos he1, Option.some_inj] at hg'
          subst hg'
          have hm3 : m ≠ dname ∧ m ∈ g.nodes := (hgnodup.mem_erase_iff).mp hm2
          obtain ⟨nd, hnd, hno⟩ := ra4 node.nodegroup g hg m hm3.2
          refine ⟨nd, ?_, ?_⟩
          · rw [dlookup_ddelete_ne _ _ _ hm3.1]
            exact hnd
          · rw [hno, he1]
        · rw [if_neg he1] at hg'
          obtain ⟨nd, hnd, hno⟩ := ra4 gname g' hg' m hm2
          by_cases he2 : m = dname
          · subst he2
            rw [hh, Option.some_inj] at hnd
            subst hnd
            exact absurd hno.symm (by rw [hno] at he1 ⊢; exact fun hx => he1 hx.symm)
          · refine ⟨nd, ?_, hno⟩
            rw [dlookup_ddelete_ne _ _ _ he2]
            exact hnd
      · exact nh
      · exact dkeys_dinsert_nodup _ _ _ nng
      · exact dkeys_ddelete_nodup _ _ nnd
      · exact hhnd
      · intro gname g' hg'
        rw [dlookup_dinsert] at hg'
        by_cases he1 : gname = node.nodegroup
        · rw [if_pos he1, Option.some_inj] at hg'
          subst hg'
          exact hgnodup.erase dname
        · rw [if_neg he1] at hg'
          exact hgnd gname g' hg'

theorem disconnect_host_state (st : ManagerState) (n : String) :
    (disconnect_host st n).2 = st := by
  unfold disconnect_host
  cases dlookup st.hosts n <;> rfl

theorem close_host_state (env : RemoteEnv) (st : ManagerState) (n : String) :
    (close_host env st n).state = st := by
  unfold close_host
  cases dlookup st.hosts n with
  | none => rfl
  | some h => cases env.hostClose n <;> rfl

theorem control_node_state (env : RemoteEnv) (st : ManagerState) (n m : String)
    (kwargs : List (String × String)) :
    (control_node env st n m kwargs).state = st := by
  unfold control_node
  cases hl : dlookup st.nodes n with
  | none => simp [hl]
  | some nd => cases hc : env.ngControlNode nd.nodegroup n m kwargs <;> simp [hl, hc]

theorem consistent_default_host (env : RemoteEnv) (st : ManagerState)
    (h : Consistent st) : Consistent (default_host env st).state := by
  unfold default_host
  cases st.defaultHost with
  | some dh => exact h
  | none => exact consistent_connect_host _ _ _ h

/-! The reachable states of the Manager: the fresh state of `__init__`,
closed under every operation of the RPC surface (each against an arbitrary
remote environment, whether the call succeeds or raises).  The pure listing
operations do not touch the state. -/

inductive MgrOp where
  | opConnectHost (name addr : String)
  | opDisconnectHost (name : String)
  | opDefaultHost
  | opCloseHost (name : String)
  | opCreateNodegroup (host name : String)
  | opCreateNode (nodegroup name classname : String) (kwargs : List (String × String))
  | opControlNode (name method : String) (kwargs : List (String × String))
  | opDeleteNode (name : String)
  | opSuggestNodegroupName
  | opSuggestNodeName
  | opStartAllNodes
  | opStopAllNodes
deriving DecidableEq, Repr

/-- The state after one operation against remote environment `env`. -/
def applyOp (env : RemoteEnv) (st : ManagerState) : MgrOp → ManagerState
  | .opConnectHost n a => connect_host st n a
  | .opDisconnectHost n => (disconnect_host st n).2
  | .opDefaultHost => (default_host env st).state
  | .opCloseHost n => (close_host env st n).state
  | .opCreateNodegroup h n => (create_nodegroup env st h n).state
  | .opCreateNode g n c k => (create_node env st g n c k).state
  | .opControlNode n m k => (control_node env st n m k).state
  | .opDeleteNode n => (delete_node env st n).state
  | .opSuggestNodegroupName => (suggest_nodegroup_name st).2
  | .opSuggestNodeName => (suggest_node_name st).2
  | .opStartAllNodes => (start_all_nodes env st).state
  | .opStopAllNodes => (stop_all_nodes env st).state

/-- Reachability: states produced by `__init__` followed by any sequence of
operations, against arbitrary remote environments. -/
inductive Reachable : ManagerState → Prop where
  | init (addr : String) : Reachable (initState addr)
  | step {st : ManagerState} (env : RemoteEnv) (op : MgrOp) :
      Reachable st → Reachable (applyOp env st op)

/-- Every reachable Manager state is fully consistent. -/
theorem reachable_consistent {st : ManagerState} (hr : Reachable st) :
    Consistent st := by
  induction hr with
  | init addr => exact consistent_initState addr
  | step env op hr ih =>
    cases op with
    | opConnectHost n a => exact consistent_connect_host _ n a ih
    | opDisconnectHost n =>
      show Consistent (disconnect_host _ n).2
      rw [disconnect_host_state]
      exact ih
    | opDefaultHost => exact consistent_default_host env _ ih
    | opCloseHost n =>
      show Consistent (close_host env _ n).state
      rw [close_host_state]
      exact ih
    | opCreateNodegroup h n => exact consistent_create_nodegroup _ env h n ih
    | opCreateNode g n c k => exact consistent_create_node _ env g n c k ih
    | opControlNode n m k =>
      show Consistent (control_node env _ n m k).state
      rw [control_node_state]
      exact ih
    | opDeleteNode n => exact consistent_delete_node _ env n ih
    | opSuggestNodegroupName => exact ih
    | opSuggestNodeName => exact ih
    | opStartAllNodes => exact ih
    | opStopAllNodes => exact ih

/-- C10: in every reachable Manager state — produced by any sequence of
operations, whether each completes or raises — the global and per-owner
registries agree bidirectionally: every globally registered Nodegroup is
listed under the same name by its owning Host and conversely, and every
globally registered Node is listed under the same name by its owning
Nodegroup and conversely. -/
theorem C10_registry_agreement (st : ManagerState) (hr : Reachable st) :
    RegistryAgrees st :=
  (reachable_consistent hr).1

/-- Witness for C10: the concrete reachable state obtained by connecting a
host, creating a nodegroup on it and creating a node inside that, with
`envOk` answering the remote calls. -/
theorem C10_registry_agreement_witness : RegistryAgrees stNode :=
  C10_registry_agreement stNode
    (Reachable.step envOk (.opCreateNode "ng1" "n1" "Cls" [])
      (Reachable.step envOk (.opCreateNodegroup "h1" "ng1")
        (Reachable.step envOk (.opConnectHost "h1" "tcp://127.0.0.1:5000")
          (Reachable.init "tcp://127.0.0.1:7000"))))

/-- C6: on a consistent registry with a registered Nodegroup, after a
successful `create_node(g, n, cls)` followed by a successful
`delete_node(n)`, the name `n` appears neither in the global node listing nor
in `g`'s node listing, and a subsequent `create_node(g, n, cls)` whose remote
call succeeds succeeds again (no ConflictError: the name is reusable). -/
theorem C6_create_delete_roundtrip
    (st : ManagerState) (env env2 : RemoteEnv) (g n cls : String)
    (hcon : Consistent st)
    (h1 : (create_node env st g n cls []).res = .ok ())
    (h2 : (delete_node env (create_node env st g n cls []).state n).res = .ok ())
    (h3 : env2.ngCreateNode g n cls [] = .ok ()) :
    (∃ l, list_nodes (delete_node env (create_node env st g n cls []).state n).state none
        = .ok l ∧ n ∉ l) ∧
    (∃ l, list_nodes (delete_node env (create_node env st g n cls []).state n).state (some g)
        = .ok l ∧ n ∉ l) ∧
    (create_node env2 (delete_node env (create_node env st g n cls []).state n).state
        g n cls []).res = .ok () := by
  by_cases hc : dmem st.nodes n = true
  · exfalso
    unfold create_node at h1
    simp [hc] at h1
  have hnone : dlookup st.nodes n = none :=
    dmem_false_dlookup _ _ (eq_false_of_ne_true hc)
  cases hh : dlookup st.nodegroups g with
  | none =>
    exfalso
    unfold create_node at h1
    simp [hc, hh] at h1
  | some ng =>
    cases he : env.ngCreateNode g n cls [] with
    | error e =>
      exfalso
      unfold create_node at h1
      simp [hc, hh, he] at h1
    | ok u =>
      have hn_ng : n ∉ ng.nodes := by
        intro hmem
        obtain ⟨nd, hnd, -⟩ := hcon.1.2.2.2 g ng hh n hmem
        rw [hnone] at hnd
        exact Option.noConfusion hnd
      have hst1 : (create_node env st g n cls []).state =
          { st with
            nodes := dinsert st.nodes n { nodegroup := g, name := n, classname := cls },
            nodegroups := dinsert st.nodegroups g { ng with nodes := addKey ng.nodes n } } := by
        unfold create_node
        simp [hc, hh, he]
      have hkey : n ∈ addKey ng.nodes n := (mem_addKey _ _ _).mpr (Or.inl rfl)
      cases hd : env.ngDeleteNode g n with
      | error e =>
        exfalso
        rw [hst1] at h2
        unfold delete_node at h2
        simp [dlookup_dinsert_self, hd] at h2
      | ok u2 =>
        have herase : (addKey ng.nodes n).erase n = ng.nodes := by
          unfold addKey
          rw [if_neg hn_ng, List.erase_append_right _ hn_ng]
          simp
        have hdel : ddelete (dinsert st.nodes n
            { nodegroup := g, name := n, classname := cls }) n = st.nodes :=
          ddelete_dinsert _ _ _ (eq_false_of_ne_true hc)
        have hst2 : (delete_node env (create_node env st g n cls []).state n).state =
            { st with
              nodes := st.nodes,
              nodegroups :=
                dinsert (dinsert st.nodegroups g { ng with nodes := addKey ng.nodes n }) g
                  { ng with nodes := ng.nodes } } := by
          rw [hst1]
          unfold delete_node
          simp [dlookup_dinsert_self, hd, hkey, hdel, herase]
        rw [hst2]
        refine ⟨⟨dkeys st.nodes, rfl, ?_⟩, ⟨ng.nodes, ?_, hn_ng⟩, ?_⟩
        · intro hmem
          obtain ⟨v, hv⟩ := mem_dkeys_dlookup _ _ hmem
          rw [hnone] at hv
          exact Option.noConfusion hv
        · simp [list_nodes, dlookup_dinsert_self]
        · unfold create_node
          simp [dmem, hnone, dlookup_dinsert_self, h3]

/-- Witness for C6: the reachable registry `stNG` (host `h1`, nodegroup
`ng1`, no nodes), with `envOk` answering all remote calls and node name
`n1`. -/
theorem C6_create_delete_roundtrip_witness :
    (∃ l, list_nodes
        (delete_node envOk (create_node envOk stNG "ng1" "n1" "Cls" []).state "n1").state none
        = .ok l ∧ "n1" ∉ l) ∧
    (∃ l, list_nodes
        (delete_node envOk (create_node envOk stNG "ng1" "n1" "Cls" []).state "n1").state
        (some "ng1") = .ok l ∧ "n1" ∉ l) ∧
    (create_node envOk
        (delete_node envOk (create_node envOk stNG "ng1" "n1" "Cls" []).state "n1").state
        "ng1" "n1" "Cls" []).res = .ok () :=
  C6_create_delete_roundtrip stNG envOk envOk "ng1" "n1" "Cls"
    (reachable_consistent (Reachable.step envOk (.opCreateNodegroup "h1" "ng1")
      (Reachable.step envOk (.opConnectHost "h1" "tcp://127.0.0.1:5000")
        (Reachable.init "tcp://127.0.0.1:7000"))))
    (by decide) (by decide) (by decide)
